import Mathlib

/-!
Verification development for the RadRVU worklist application.

The program's text pipeline works over JavaScript strings restricted to
the ASCII range by its regexes; we embed strings as `List Char`,
JavaScript numbers as `ℚ`, and `Map`/object lookups as association lists.
-/

namespace RadRVU

/-- A character in the class [a-z0-9], as used by the source regexes. -/
def isAlnum (c : Char) : Bool :=
  (97 ≤ c.toNat && c.toNat ≤ 122) || (48 ≤ c.toNat && c.toNat ≤ 57)

/-- ASCII lowercasing, embedding String.prototype.toLowerCase on the
relevant range. -/
def lowerChar (c : Char) : Char :=
  if 65 ≤ c.toNat && c.toNat ≤ 90 then Char.ofNat (c.toNat + 32) else c

def toLowerStr (s : List Char) : List Char := s.map lowerChar

/-- The fixed abbreviation table of the application (object literal
ABBREVIATIONS in the main module), as an association list. -/
def ABBREVIATIONS : List (List Char × List Char) :=
  [ ("us".toList, "ultrasound".toList)
  , ("usg".toList, "ultrasound".toList)
  , ("ultrasonic".toList, "ultrasound".toList)
  , ("bx".toList, "biopsy".toList)
  , ("mammo".toList, "mammogram".toList)
  , ("mammography".toList, "mammogram".toList)
  , ("xr".toList, "xray".toList)
  , ("cr".toList, "xray".toList)
  , ("dr".toList, "xray".toList)
  , ("mr".toList, "mri".toList)
  , ("fu".toList, "followup".toList)
  , ("followup".toList, "followup".toList)
  , ("ltd".toList, "limited".toList)
  , ("scr".toList, "screening".toList)
  , ("scrn".toList, "screening".toList)
  , ("dx".toList, "diagnostic".toList)
  , ("diag".toList, "diagnostic".toList)
  , ("bil".toList, "bilateral".toList)
  , ("bilat".toList, "bilateral".toList)
  , ("unilat".toList, "unilateral".toList)
  , ("w".toList, "with".toList)
  , ("wo".toList, "without".toList)
  , ("cont".toList, "contrast".toList)
  , ("thor".toList, "thoracic".toList)
  , ("abd".toList, "abdomen".toList)
  , ("pelv".toList, "pelvis".toList)
  , ("ang".toList, "angio".toList)
  , ("cerv".toList, "cervical".toList)
  , ("lumb".toList, "lumbar".toList) ]

/-- Key lookup in an association list of strings (object indexing). -/
def lookupAL : List (List Char × List Char) → List Char → Option (List Char)
  | [], _ => none
  | (k, v) :: rest, q => if k = q then some v else lookupAL rest q

/-- `t.toLowerCase().replace(/[^a-z0-9]/g, '')` from normalizeToken. -/
def normalizeClean (t : List Char) : List Char :=
  (toLowerStr t).filter isAlnum

/-- normalizeToken from the main module: lowercase, strip every
non-alphanumeric character, then expand via the abbreviation table. -/
def normalizeToken (t : List Char) : List Char :=
  match lookupAL ABBREVIATIONS (normalizeClean t) with
  | some v => v
  | none => normalizeClean t

/-- Characters kept by the split regex `/[^a-z0-9/]/`: alphanumerics and
the slash. -/
def isKeep (c : Char) : Bool := isAlnum c || c.toNat == 47

/-- Splits a character list into the maximal runs of kept characters;
the empty fragments produced by `split` are exactly what the source's
`filter(w => w.length > 0)` removes, so we produce the runs directly. -/
def splitAux : List Char → List Char → List (List Char)
  | [], acc => if acc.isEmpty then [] else [acc.reverse]
  | c :: rest, acc =>
    if isKeep c then splitAux rest (c :: acc)
    else if acc.isEmpty then splitAux rest acc
    else acc.reverse :: splitAux rest []

def splitTokens (s : List Char) : List (List Char) := splitAux s []

/-- `w.replace(/^[^a-z0-9]+|[^a-z0-9]+$/g, '')`: strip leading and
trailing non-alphanumeric characters. -/
def stripEnds (w : List Char) : List Char :=
  ((w.dropWhile (fun c => !isAlnum c)).reverse.dropWhile
    (fun c => !isAlnum c)).reverse

def lateralIgnoreSet : List (List Char) :=
  ["lt".toList, "rt".toList, "left".toList, "right".toList]

def fillerIgnoreSet : List (List Char) :=
  ["the".toList, "and".toList, "for".toList, "or".toList, "of".toList,
   "in".toList]

/-- getSignificantWords from the main module. -/
def getSignificantWords (s : List Char) : List (List Char) :=
  (((splitTokens (toLowerStr s)).filter (fun w => decide (0 < w.length))).map
      (fun w => normalizeToken (stripEnds w))).filter
    (fun w => decide (0 < w.length) && !(lateralIgnoreSet.contains w)
      && !(fillerIgnoreSet.contains w))

/-- calculateWordOverlap from the main module: words1 is used only
through set membership, words2 is iterated as a list. -/
def calculateWordOverlap (s1 s2 : List Char) : Nat :=
  let words1 := getSignificantWords s1
  let words2 := getSignificantWords s2
  (words2.filter (fun w => words1.contains w)).length

example : getSignificantWords ("CT Head W/O Contrast".toList) =
    ["ct".toList, "head".toList, "without".toList, "contrast".toList] := by
  decide

example : calculateWordOverlap ("CT Head W/O Contrast".toList)
    ("CT Head without contrast".toList) = 4 := by decide

/-- The category tag of a catalog entry (types.ts). -/
inductive Category where
  | xRay | ct | mri | ultrasound | nuclearMedicine | interventional | other
  deriving DecidableEq, Repr

/-- StudyDefinition from types.ts: a static catalog entry. -/
structure StudyDefinition where
  cpt : List Char
  name : List Char
  rvu : ℚ
  category : Category
  deriving DecidableEq, Repr

/-- ScannedStudy from types.ts: a user-visible line item. -/
structure ScannedStudy where
  id : List Char
  cpt : List Char
  name : List Char
  rvu : ℚ
  quantity : ℚ
  confidence : ℚ
  originalText : Option (List Char)
  deriving DecidableEq, Repr

/-- CalculationResults from types.ts. -/
structure CalculationResults where
  totalRVU : ℚ
  totalEarnings : ℚ
  studyCount : ℚ
  deriving DecidableEq, Repr

/-- One parsed element of the extraction response (the JSON schema of
the external call); fields the code guards with `||` or `??` are kept
optional. -/
structure ExtractedItem where
  cpt : List Char
  name : List Char
  quantity : Option ℚ
  originalText : Option (List Char)
  confidence : Option ℚ
  deriving DecidableEq, Repr

/-- One iteration of the candidate loop in processFile: update the
(bestMatch, highestOverlap) accumulator with a catalog entry. -/
def bestStep (text : List Char) (acc : Option StudyDefinition × Nat)
    (dbItem : StudyDefinition) : Option StudyDefinition × Nat :=
  if min 4 (getSignificantWords dbItem.name).length ≤
        calculateWordOverlap text dbItem.name
      ∧ acc.2 < calculateWordOverlap text dbItem.name then
    (some dbItem, calculateWordOverlap text dbItem.name)
  else acc

/-- The candidate loop of processFile over the whole catalog, starting
from bestMatch = null, highestOverlap = 0. -/
def bestOverlapMatch (db : List StudyDefinition) (text : List Char) :
    Option StudyDefinition × Nat :=
  db.foldl (bestStep text) (none, 0)

/-- `ex.originalText || ex.name`: JavaScript falsy test, so an empty
original text also falls back to the name. -/
def sourceText (ex : ExtractedItem) : List Char :=
  match ex.originalText with
  | some t => if t = [] then ex.name else t
  | none => ex.name

/-- The whole per-item matching of processFile: the threshold-gated
overlap loop, then the exact stripped-name fallback. -/
def matchItem (db : List StudyDefinition) (ex : ExtractedItem) :
    Option StudyDefinition :=
  match (bestOverlapMatch db (sourceText ex)).1 with
  | some m => some m
  | none => db.find? (fun s => normalizeClean s.name == normalizeClean ex.name)

/-- Row construction of processFile for a matched item: code, name and
RVU come from the catalog entry; `ex.quantity || 1` and
`ex.confidence ?? 0.0`. -/
def mkScanned (idStr : List Char) (ex : ExtractedItem)
    (m : StudyDefinition) : ScannedStudy :=
  { id := idStr
    cpt := m.cpt
    name := m.name
    rvu := m.rvu
    quantity := match ex.quantity with
      | some q => if q = 0 then 1 else q
      | none => 1
    confidence := match ex.confidence with
      | some c => c
      | none => 0
    originalText := ex.originalText }

/-- The map-then-filter(Boolean) of processFile over the extraction
batch; the nondeterministic row identifier is a parameter of the
embedding. -/
def processItems (db : List StudyDefinition) (mkId : Nat → List Char)
    (extracted : List ExtractedItem) : List ScannedStudy :=
  extracted.enum.filterMap
    (fun p => (matchItem db p.2).map (mkScanned (mkId p.1) p.2))

/-- Association-list read of a JavaScript Map. -/
def mapGet (m : List (List Char × ScannedStudy)) (k : List Char) :
    Option ScannedStudy :=
  match m with
  | [] => none
  | (k', v) :: rest => if k' = k then some v else mapGet rest k

/-- Association-list write of a JavaScript Map: replace in place if the
key exists, else append (insertion order is preserved). -/
def mapSet (m : List (List Char × ScannedStudy)) (k : List Char)
    (v : ScannedStudy) : List (List Char × ScannedStudy) :=
  match m with
  | [] => [(k, v)]
  | (k', v') :: rest =>
    if k' = k then (k, v) :: rest else (k', v') :: mapSet rest k v

/-- The grouping key `${s.cpt}-${s.name}` of displayStudies. -/
def groupKey (s : ScannedStudy) : List Char := s.cpt ++ '-' :: s.name

/-- The merged record built when a key is already present: quantities
add, confidences take the maximum, original text is dropped. -/
def mergeRow (existing s : ScannedStudy) : ScannedStudy :=
  { existing with
    quantity := existing.quantity + s.quantity
    confidence := max existing.confidence s.confidence
    originalText := none }

/-- One iteration of the forEach of displayStudies. -/
def groupInsert (m : List (List Char × ScannedStudy)) (s : ScannedStudy) :
    List (List Char × ScannedStudy) :=
  match mapGet m (groupKey s) with
  | some existing => mapSet m (groupKey s) (mergeRow existing s)
  | none => mapSet m (groupKey s) s

/-- The grouped Map of displayStudies. -/
def groupedMap (studies : List ScannedStudy) :
    List (List Char × ScannedStudy) :=
  studies.foldl groupInsert []

/-- displayStudies: the underlying list when ungrouped, the values of
the grouped map otherwise. -/
def displayStudies (isGrouped : Bool) (studies : List ScannedStudy) :
    List ScannedStudy :=
  if isGrouped then (groupedMap studies).map (fun p => p.2) else studies

/-- deleteStudy from the main module: drop the row with the given
identifier. -/
def deleteStudy (l : List ScannedStudy) (idStr : List Char) :
    List ScannedStudy :=
  l.filter (fun s => !(s.id = idStr : Bool))

/-- handleDelete of StudyTable in grouped mode: collect the identifiers
of every row sharing the clicked row's code and name, then delete each
in turn. -/
def handleDeleteGrouped (l : List ScannedStudy) (study : ScannedStudy) :
    List ScannedStudy :=
  ((l.filter (fun s => decide (s.cpt = study.cpt) &&
      decide (s.name = study.name))).map (fun s => s.id)).foldl deleteStudy l

/-- The aggregate results memo of the main module. -/
def results (studies : List ScannedStudy) (rvuRate : ℚ) :
    CalculationResults :=
  let totalRVU := studies.foldl (fun acc s => acc + s.rvu * s.quantity) 0
  { totalRVU := totalRVU
    totalEarnings := totalRVU * rvuRate
    studyCount := studies.foldl (fun acc s => acc + s.quantity) 0 }

/-- performOCRAndMatch (geminiService.ts), with the external call
abstracted: `outcome` is `Except.error` when the transport or the JSON
parse throws, `Except.ok none` when the parsed object lacks a studies
array, and `Except.ok (some l)` on success. The two strings are the two
environment credential sources combined by `||`. -/
def performOCRAndMatch (viteKey procKey : String)
    (outcome : Except Unit (Option (List ExtractedItem))) :
    List ExtractedItem :=
  let apiKey := if viteKey = "" then procKey else viteKey
  if apiKey = "" then []
  else
    match outcome with
    | .error _ => []
    | .ok none => []
    | .ok (some studies) => studies

/-- Set-based overlap as the specification words it: the number of
tokens in the extracted text's significant-token set that are also
present in the catalog entry's significant-token set. Stated from the
spec for comparison with `calculateWordOverlap`. -/
def specOverlapScore (s1 s2 : List Char) : Nat :=
  ((getSignificantWords s1).dedup.filter
    (fun w => (getSignificantWords s2).contains w)).length

lemma lowerChar_of_isAlnum {c : Char} (h : isAlnum c = true) :
    lowerChar c = c := by
  unfold isAlnum at h
  unfold lowerChar
  simp only [Bool.or_eq_true, Bool.and_eq_true, decide_eq_true_eq] at h
  have hcond : ¬(65 ≤ c.toNat ∧ c.toNat ≤ 90) := by omega
  simp only [Bool.and_eq_true, decide_eq_true_eq, ite_eq_right_iff]
  intro hc
  exact absurd hc hcond

lemma normalizeClean_idem (t : List Char) :
    normalizeClean (normalizeClean t) = normalizeClean t := by
  unfold normalizeClean toLowerStr
  have hmem : ∀ c ∈ (t.map lowerChar).filter isAlnum, isAlnum c = true :=
    fun c hc => (List.mem_filter.mp hc).2
  rw [List.map_congr_left (fun c hc => lowerChar_of_isAlnum (hmem c hc))]
  rw [List.map_id']
  exact List.filter_eq_self.mpr hmem

lemma lookupAL_mem :
    ∀ (l : List (List Char × List Char)) (q v : List Char),
      lookupAL l q = some v → (q, v) ∈ l := by
  intro l
  induction l with
  | nil => intro q v h; simp [lookupAL] at h
  | cons p rest ih =>
    intro q v h
    unfold lookupAL at h
    by_cases hk : p.1 = q
    · simp only [hk, if_pos rfl] at h
      cases h
      subst hk
      exact List.mem_cons_self _ _
    · rw [if_neg hk] at h
      exact List.mem_cons_of_mem _ (ih q v h)

lemma abbrev_values_fixed :
    ABBREVIATIONS.all (fun p => normalizeToken p.2 == p.2) = true := by decide

/-- C3: token normalization is idempotent; a second application of
normalizeToken returns its input unchanged. -/
theorem normalizeToken_idem_C3 (t : List Char) :
    normalizeToken (normalizeToken t) = normalizeToken t := by
  unfold normalizeToken
  cases h : lookupAL ABBREVIATIONS (normalizeClean t) with
  | none => rw [normalizeClean_idem, h]
  | some v =>
    have hv : (normalizeClean t, v) ∈ ABBREVIATIONS :=
      lookupAL_mem _ _ _ h
    have hfix := List.all_eq_true.mp abbrev_values_fixed _ hv
    have hfix' : normalizeToken v = v := by simpa using hfix
    unfold normalizeToken at hfix'
    exact hfix'

/-- C9: the aggregate results are the claimed sums: total RVU is the sum
of weight times quantity, earnings multiply that by the conversion rate,
and the study count sums the quantities. -/
theorem results_totals_C9 (studies : List ScannedStudy) (rvuRate : ℚ) :
    results studies rvuRate =
      { totalRVU := (studies.map (fun s => s.rvu * s.quantity)).sum
        totalEarnings := (studies.map (fun s => s.rvu * s.quantity)).sum * rvuRate
        studyCount := (studies.map (fun s => s.quantity)).sum } := by
  have h : ∀ (f : ScannedStudy → ℚ) (l : List ScannedStudy) (a : ℚ),
      l.foldl (fun acc s => acc + f s) a = a + (l.map f).sum := by
    intro f l
    induction l with
    | nil => intro a; simp
    | cons x xs ih => intro a; simp [ih, add_assoc]
  unfold results
  rw [h, h]
  simp

/-- C7: the extraction wrapper returns the empty list when no API
credential is configured and on any transport or parse failure, and in
every case returns a plain list rather than propagating an error. -/
theorem extraction_failure_empty_C7 :
    (∀ o, performOCRAndMatch "" "" o = [])
  ∧ (∀ v p e, performOCRAndMatch v p (Except.error e) = [])
  ∧ (∀ v p o, performOCRAndMatch v p o = []
      ∨ ∃ l, o = Except.ok (some l) ∧ performOCRAndMatch v p o = l) := by
  refine ⟨?_, ?_, ?_⟩
  · intro o
    unfold performOCRAndMatch
    simp
  · intro v p e
    unfold performOCRAndMatch
    by_cases h : (if v = "" then p else v) = "" <;> simp [h]
  · intro v p o
    unfold performOCRAndMatch
    by_cases h : (if v = "" then p else v) = ""
    · left; simp [h]
    · cases o with
      | error e => left; simp [h]
      | ok data =>
        cases data with
        | none => left; simp [h]
        | some l => right; exact ⟨l, rfl, by simp [h]⟩

/-- C2 fails as stated: with catalog name "ct ct head" the code counts
the duplicated catalog token twice, while the claimed set-based count
gives 2. -/
theorem overlap_score_C2_counterexample :
    calculateWordOverlap ("ct head".toList) ("ct ct head".toList) = 3 ∧
    specOverlapScore ("ct head".toList) ("ct ct head".toList) = 2 := by
  decide

/-- C2 amended: when the catalog entry's significant-word list has no
duplicate tokens, the code's overlap score coincides with the claimed
set-based count. -/
theorem overlap_score_C2 (s1 s2 : List Char)
    (h : (getSignificantWords s2).Nodup) :
    calculateWordOverlap s1 s2 = specOverlapScore s1 s2 := by
  unfold calculateWordOverlap specOverlapScore
  have h1 : ((getSignificantWords s2).filter
      (fun w => (getSignificantWords s1).contains w)).Nodup :=
    h.filter _
  have h2 : ((getSignificantWords s1).dedup.filter
      (fun w => (getSignificantWords s2).contains w)).Nodup :=
    (List.nodup_dedup _).filter _
  rw [← List.toFinset_card_of_nodup h1, ← List.toFinset_card_of_nodup h2]
  congr 1
  ext w
  simp only [List.toFinset_filter, Finset.mem_filter, List.mem_toFinset,
    List.mem_dedup, List.contains, List.elem_eq_mem, decide_eq_true_eq]
  constructor
  · rintro ⟨hw2, hw1⟩
    exact ⟨hw1, hw2⟩
  · rintro ⟨hw1, hw2⟩
    exact ⟨hw2, hw1⟩

/-- Witness for the amended C2 on duplicate-free catalog tokens. -/
theorem overlap_score_C2_witness :
    (getSignificantWords ("CT Head without contrast".toList)).Nodup ∧
    calculateWordOverlap ("ct head".toList)
        ("CT Head without contrast".toList) =
      specOverlapScore ("ct head".toList)
        ("CT Head without contrast".toList) :=
  ⟨by decide, overlap_score_C2 _ _ (by decide)⟩

/-- C10: every produced row takes code, name and RVU from its matched
catalog entry, quantity defaults to 1 on a missing or zero extracted
quantity, and confidence defaults to 0 when missing. -/
theorem processed_row_fields_C10 (db : List StudyDefinition)
    (mkId : Nat → List Char) (extracted : List ExtractedItem)
    (st : ScannedStudy) (hst : st ∈ processItems db mkId extracted) :
    ∃ i ex m, (i, ex) ∈ extracted.enum ∧ matchItem db ex = some m ∧
      st = mkScanned (mkId i) ex m ∧
      st.cpt = m.cpt ∧ st.name = m.name ∧ st.rvu = m.rvu ∧
      ((ex.quantity = none ∨ ex.quantity = some 0) → st.quantity = 1) ∧
      (ex.confidence = none → st.confidence = 0) := by
  unfold processItems at hst
  obtain ⟨p, hmem, hmap⟩ := List.mem_filterMap.mp hst
  obtain ⟨i, ex⟩ := p
  cases hm : matchItem db ex with
  | none => rw [hm] at hmap; simp at hmap
  | some m =>
    rw [hm] at hmap
    simp only [Option.map_some', Option.some.injEq] at hmap
    subst hmap
    refine ⟨i, ex, m, hmem, hm, rfl, rfl, rfl, rfl, ?_, ?_⟩
    · rintro (hq | hq) <;> simp [mkScanned, hq]
    · intro hc
      simp [mkScanned, hc]

/-- A catalog entry used by concrete witnesses. -/
def sampleEntry : StudyDefinition :=
  { cpt := "70450".toList
    name := "CT Head without contrast".toList
    rvu := 1
    category := Category.ct }

/-- An extraction output used by concrete witnesses. -/
def sampleItem : ExtractedItem :=
  { cpt := "70450".toList
    name := "CT Head".toList
    quantity := some 2
    originalText := some ("CT Head W/O Contrast".toList)
    confidence := some 1 }

/-- An extraction output matching nothing, used by concrete witnesses. -/
def sampleMiss : ExtractedItem :=
  { cpt := []
    name := "zz".toList
    quantity := none
    originalText := none
    confidence := none }

/-- Witness for C10 on a concrete catalog and extraction output. -/
theorem processed_row_fields_C10_witness :
    mkScanned ("row".toList) sampleItem sampleEntry ∈
      processItems [sampleEntry] (fun _ => "row".toList) [sampleItem] ∧
    ∃ i ex m,
      (i, ex) ∈ ([sampleItem] : List ExtractedItem).enum ∧
      matchItem [sampleEntry] ex = some m ∧
      mkScanned ("row".toList) sampleItem sampleEntry =
        mkScanned ((fun _ => "row".toList : Nat → List Char) i) ex m ∧
      (mkScanned ("row".toList) sampleItem sampleEntry).cpt = m.cpt ∧
      (mkScanned ("row".toList) sampleItem sampleEntry).name = m.name ∧
      (mkScanned ("row".toList) sampleItem sampleEntry).rvu = m.rvu ∧
      ((ex.quantity = none ∨ ex.quantity = some 0) →
        (mkScanned ("row".toList) sampleItem sampleEntry).quantity = 1) ∧
      (ex.confidence = none →
        (mkScanned ("row".toList) sampleItem sampleEntry).confidence = 0) :=
  ⟨by decide,
   processed_row_fields_C10 [sampleEntry] (fun _ => "row".toList) [sampleItem]
     (mkScanned ("row".toList) sampleItem sampleEntry) (by decide)⟩

/-- C8: when the threshold-gated overlap search fails, the item is
matched by exact equality of the fully stripped lowercase alphanumeric
names, and when that also fails the item produces no row at all. -/
theorem fallback_match_C8 (db : List StudyDefinition) (ex : ExtractedItem)
    (h : (bestOverlapMatch db (sourceText ex)).1 = none) :
    matchItem db ex =
      db.find? (fun s => normalizeClean s.name == normalizeClean ex.name)
  ∧ (db.find? (fun s => normalizeClean s.name == normalizeClean ex.name)
        = none →
      ∀ mkId, processItems db mkId [ex] = []) := by
  have hmain : matchItem db ex =
      db.find? (fun s => normalizeClean s.name == normalizeClean ex.name) := by
    unfold matchItem
    rw [h]
  refine ⟨hmain, ?_⟩
  intro hf mkId
  unfold processItems
  simp [hmain, hf]

/-- Witness for C8: an extracted name with no token overlap falls
through to the (here failing) stripped-name comparison. -/
theorem fallback_match_C8_witness :
    (bestOverlapMatch [sampleEntry] (sourceText sampleMiss)).1 = none ∧
    matchItem [sampleEntry] sampleMiss =
      [sampleEntry].find? (fun s => normalizeClean s.name ==
        normalizeClean sampleMiss.name) :=
  ⟨by decide, (fallback_match_C8 [sampleEntry] sampleMiss (by decide)).1⟩

lemma bestFold_spec (text : List Char) :
    ∀ (db : List StudyDefinition) (acc : Option StudyDefinition × Nat),
      acc.2 ≤ (db.foldl (bestStep text) acc).2
    ∧ (∀ d ∈ db,
        min 4 (getSignificantWords d.name).length ≤
            calculateWordOverlap text d.name →
          calculateWordOverlap text d.name ≤
            (db.foldl (bestStep text) acc).2)
    ∧ (db.foldl (bestStep text) acc = acc
       ∨ ∃ d ∈ db,
           db.foldl (bestStep text) acc =
             (some d, calculateWordOverlap text d.name)
         ∧ min 4 (getSignificantWords d.name).length ≤
             calculateWordOverlap text d.name) := by
  intro db
  induction db with
  | nil =>
    intro acc
    exact ⟨le_refl _, fun d hd => absurd hd (List.not_mem_nil d), Or.inl rfl⟩
  | cons a rest ih =>
    intro acc
    simp only [List.foldl_cons]
    obtain ⟨ih1, ih2, ih3⟩ := ih (bestStep text acc a)
    have hb : acc.2 ≤ (bestStep text acc a).2 := by
      unfold bestStep
      by_cases hcond : min 4 (getSignificantWords a.name).length ≤
          calculateWordOverlap text a.name
        ∧ acc.2 < calculateWordOverlap text a.name
      · rw [if_pos hcond]
        exact le_of_lt hcond.2
      · rw [if_neg hcond]
    refine ⟨le_trans hb ih1, ?_, ?_⟩
    · intro d hd hthr
      rcases List.mem_cons.mp hd with hda | hdr
      · subst hda
        by_cases hlt : acc.2 < calculateWordOverlap text d.name
        · have hupd : bestStep text acc d =
              (some d, calculateWordOverlap text d.name) := by
            unfold bestStep
            rw [if_pos ⟨hthr, hlt⟩]
          calc calculateWordOverlap text d.name
              = (bestStep text acc d).2 := by rw [hupd]
            _ ≤ _ := ih1
        · exact le_trans (not_lt.mp hlt) (le_trans hb ih1)
      · exact ih2 d hdr hthr
    · rcases ih3 with heq | ⟨d, hdmem, hres, hthr⟩
      · rw [heq]
        unfold bestStep
        by_cases hcond : min 4 (getSignificantWords a.name).length ≤
            calculateWordOverlap text a.name
          ∧ acc.2 < calculateWordOverlap text a.name
        · rw [if_pos hcond]
          exact Or.inr ⟨a, List.mem_cons_self _ _, rfl, hcond.1⟩
        · rw [if_neg hcond]
          exact Or.inl rfl
      · exact Or.inr ⟨d, List.mem_cons_of_mem _ hdmem, hres, hthr⟩

/-- C1: an accepted candidate's score is its overlap, meets or exceeds
min(4, significant-token count of its name), and is maximal among
threshold-meeting candidates; a 3-significant-token entry is matched at
overlap 3 and rejected at overlap 2. -/
theorem matching_threshold_C1 :
    (∀ (db : List StudyDefinition) (text : List Char)
        (m : StudyDefinition) (s : Nat),
      bestOverlapMatch db text = (some m, s) →
        s = calculateWordOverlap text m.name
      ∧ min 4 (getSignificantWords m.name).length ≤ s
      ∧ ∀ d ∈ db,
          min 4 (getSignificantWords d.name).length ≤
            calculateWordOverlap text d.name →
          calculateWordOverlap text d.name ≤ s)
  ∧ (∀ (e : StudyDefinition) (text : List Char),
      (getSignificantWords e.name).length = 3 →
      calculateWordOverlap text e.name = 3 →
      (bestOverlapMatch [e] text).1 = some e)
  ∧ (∀ (e : StudyDefinition) (text : List Char),
      (getSignificantWords e.name).length = 3 →
      calculateWordOverlap text e.name = 2 →
      (bestOverlapMatch [e] text).1 = none) := by
  refine ⟨?_, ?_, ?_⟩
  · intro db text m s hres
    obtain ⟨h1, h2, h3⟩ := bestFold_spec text db (none, 0)
    unfold bestOverlapMatch at hres
    rcases h3 with heq | ⟨d, hdmem, hres', hthr⟩
    · rw [hres] at heq
      simp at heq
    · rw [hres] at hres'
      injection hres' with hm hs
      injection hm with hm
      subst hm
      subst hs
      refine ⟨rfl, hthr, ?_⟩
      intro d hd hthr'
      have := h2 d hd hthr'
      rw [hres] at this
      exact this
  · intro e text hlen hov
    unfold bestOverlapMatch
    simp only [List.foldl_cons, List.foldl_nil]
    unfold bestStep
    rw [hlen, hov]
    norm_num
  · intro e text hlen hov
    unfold bestOverlapMatch
    simp only [List.foldl_cons, List.foldl_nil]
    unfold bestStep
    rw [hlen, hov]
    norm_num

/-- A catalog entry whose canonical name has exactly 3 significant
tokens, for the C1 witness. -/
def sampleEntry3 : StudyDefinition :=
  { cpt := "70450".toList
    name := "CT Head without".toList
    rvu := 1
    category := Category.ct }

/-- Witness for C1: the 3-token entry matches on full overlap and is
rejected sharing only 2 tokens. -/
theorem matching_threshold_C1_witness :
    ((getSignificantWords sampleEntry3.name).length = 3
      ∧ calculateWordOverlap ("ct head without".toList) sampleEntry3.name = 3
      ∧ calculateWordOverlap ("ct head".toList) sampleEntry3.name = 2)
  ∧ (bestOverlapMatch [sampleEntry3] ("ct head without".toList)).1 =
      some sampleEntry3
  ∧ (bestOverlapMatch [sampleEntry3] ("ct head".toList)).1 = none :=
  ⟨⟨by decide, by decide, by decide⟩,
   matching_threshold_C1.2.1 sampleEntry3 ("ct head without".toList)
     (by decide) (by decide),
   matching_threshold_C1.2.2 sampleEntry3 ("ct head".toList)
     (by decide) (by decide)⟩

lemma mapGet_mapSet_self (m : List (List Char × ScannedStudy))
    (k : List Char) (v : ScannedStudy) :
    mapGet (mapSet m k v) k = some v := by
  induction m with
  | nil => simp [mapSet, mapGet]
  | cons p rest ih =>
    obtain ⟨k', v'⟩ := p
    unfold mapSet
    by_cases h : k' = k
    · rw [if_pos h]
      simp [mapGet]
    · rw [if_neg h]
      unfold mapGet
      rw [if_neg h]
      exact ih

lemma mapGet_mapSet_ne (m : List (List Char × ScannedStudy))
    (k q : List Char) (v : ScannedStudy) (h : k ≠ q) :
    mapGet (mapSet m k v) q = mapGet m q := by
  induction m with
  | nil => simp [mapSet, mapGet, if_neg h]
  | cons p rest ih =>
    obtain ⟨k', v'⟩ := p
    unfold mapSet
    by_cases hk : k' = k
    · rw [if_pos hk]
      unfold mapGet
      rw [if_neg h, if_neg (hk ▸ h : k' ≠ q)]
    · rw [if_neg hk]
      unfold mapGet
      by_cases hq : k' = q
      · rw [if_pos hq, if_pos hq]
      · rw [if_neg hq, if_neg hq]
        exact ih

/-- The accumulated group row produced by repeated merging: `none` for
an empty bucket, otherwise the fold of `mergeRow` over the bucket
starting at its first row. -/
def aggregateGroup : List ScannedStudy → Option ScannedStudy
  | [] => none
  | s :: rest => some (rest.foldl mergeRow s)

lemma groupedMap_get (l : List ScannedStudy) (k : List Char) :
    mapGet (groupedMap l) k =
      aggregateGroup (l.filter (fun s => decide (groupKey s = k))) := by
  induction l using List.reverseRecOn with
  | nil => rfl
  | append_singleton l s ih =>
    have hfold : groupedMap (l ++ [s]) = groupInsert (groupedMap l) s := by
      unfold groupedMap
      rw [List.foldl_append]
      rfl
    rw [hfold]
    by_cases hk : groupKey s = k
    · have hfilter : (l ++ [s]).filter (fun r => decide (groupKey r = k)) =
          l.filter (fun r => decide (groupKey r = k)) ++ [s] := by
        rw [List.filter_append]
        simp [hk]
      rw [hfilter]
      unfold groupInsert
      rw [hk, ih]
      cases hF : l.filter (fun r => decide (groupKey r = k)) with
      | nil => simp [aggregateGroup, mapGet_mapSet_self]
      | cons h0 t =>
        simp [aggregateGroup, mapGet_mapSet_self, List.foldl_append]
    · have hfilter : (l ++ [s]).filter (fun r => decide (groupKey r = k)) =
          l.filter (fun r => decide (groupKey r = k)) := by
        rw [List.filter_append]
        simp [hk]
      rw [hfilter, ← ih]
      unfold groupInsert
      cases hM : mapGet (groupedMap l) (groupKey s) with
      | none => simp [mapGet_mapSet_ne _ _ _ _ hk]
      | some existing => simp [mapGet_mapSet_ne _ _ _ _ hk]

lemma foldl_mergeRow_quantity (t : List ScannedStudy) :
    ∀ h : ScannedStudy, (t.foldl mergeRow h).quantity =
      h.quantity + (t.map (fun s => s.quantity)).sum := by
  induction t with
  | nil => intro h; simp
  | cons a t ih =>
    intro h
    simp only [List.foldl_cons, List.map_cons, List.sum_cons]
    rw [ih]
    show (mergeRow h a).quantity + _ = _
    unfold mergeRow
    simp [add_assoc]

lemma foldl_mergeRow_confidence (t : List ScannedStudy) :
    ∀ h : ScannedStudy, (t.foldl mergeRow h).confidence =
      (t.map (fun s => s.confidence)).foldl max h.confidence := by
  induction t with
  | nil => intro h; simp
  | cons a t ih =>
    intro h
    simp only [List.foldl_cons, List.map_cons]
    rw [ih]
    rfl

lemma foldl_mergeRow_origNone (t : List ScannedStudy) :
    ∀ h : ScannedStudy, h.originalText = none →
      (t.foldl mergeRow h).originalText = none := by
  induction t with
  | nil => intro h hh; exact hh
  | cons a t ih =>
    intro h hh
    simp only [List.foldl_cons]
    exact ih (mergeRow h a) rfl

lemma foldl_mergeRow_orig (t : List ScannedStudy) (h : ScannedStudy)
    (hne : t ≠ []) : (t.foldl mergeRow h).originalText = none := by
  cases t with
  | nil => exact absurd rfl hne
  | cons a t =>
    simp only [List.foldl_cons]
    exact foldl_mergeRow_origNone t (mergeRow h a) rfl

/-- A running maximum over an option accumulator, used to state the
confidence aggregate of a bucket independently of its first element. -/
def maxStep (o : Option ℚ) (x : ℚ) : Option ℚ :=
  match o with
  | none => some x
  | some m => some (max m x)

lemma maxStep_comm (o : Option ℚ) (x y : ℚ) :
    maxStep (maxStep o x) y = maxStep (maxStep o y) x := by
  cases o <;> simp [maxStep, max_comm, max_left_comm]

lemma foldl_maxStep_some (xs : List ℚ) :
    ∀ m : ℚ, xs.foldl maxStep (some m) = some (xs.foldl max m) := by
  induction xs with
  | nil => intro m; rfl
  | cons x xs ih =>
    intro m
    simp only [List.foldl_cons]
    exact ih (max m x)

lemma perm_foldl_maxStep {l1 l2 : List ℚ} (h : l1.Perm l2) :
    ∀ o : Option ℚ, l1.foldl maxStep o = l2.foldl maxStep o := by
  induction h with
  | nil => intro o; rfl
  | cons x _ ih =>
    intro o
    simp only [List.foldl_cons]
    exact ih _
  | swap x y l =>
    intro o
    simp only [List.foldl_cons]
    rw [maxStep_comm]
  | trans _ _ ih1 ih2 =>
    intro o
    rw [ih1, ih2]

/-- C4: grouping permuted inputs yields, at every grouping key, the
same aggregate quantity and the same maximum confidence. -/
theorem grouping_order_independent_C4 (l1 l2 : List ScannedStudy)
    (hp : l1.Perm l2) (k : List Char) :
    (mapGet (groupedMap l1) k).map (fun s => (s.quantity, s.confidence)) =
    (mapGet (groupedMap l2) k).map (fun s => (s.quantity, s.confidence)) := by
  rw [groupedMap_get, groupedMap_get]
  have hf : (l1.filter (fun s => decide (groupKey s = k))).Perm
      (l2.filter (fun s => decide (groupKey s = k))) := hp.filter _
  cases h1 : l1.filter (fun s => decide (groupKey s = k)) with
  | nil =>
    rw [h1] at hf
    rw [List.perm_nil.mp hf.symm]
  | cons a t1 =>
    rw [h1] at hf
    cases h2 : l2.filter (fun s => decide (groupKey s = k)) with
    | nil =>
      rw [h2] at hf
      exact absurd (List.perm_nil.mp hf) (List.cons_ne_nil _ _)
    | cons b t2 =>
      rw [h2] at hf
      simp only [aggregateGroup, Option.map_some']
      have hq : (t1.foldl mergeRow a).quantity =
          (t2.foldl mergeRow b).quantity := by
        rw [foldl_mergeRow_quantity, foldl_mergeRow_quantity]
        have hsum := (hf.map (fun s => s.quantity)).sum_eq
        simpa using hsum
      have hc : (t1.foldl mergeRow a).confidence =
          (t2.foldl mergeRow b).confidence := by
        rw [foldl_mergeRow_confidence, foldl_mergeRow_confidence]
        have hstep := perm_foldl_maxStep (hf.map (fun s => s.confidence)) none
        simp only [List.map_cons, List.foldl_cons, maxStep] at hstep
        rw [foldl_maxStep_some, foldl_maxStep_some] at hstep
        exact Option.some.inj hstep
      rw [hq, hc]

/-- First sample row for the grouping witnesses. -/
def sampleRowA : ScannedStudy :=
  { id := "idA".toList
    cpt := "70450".toList
    name := "CT Head without contrast".toList
    rvu := 1
    quantity := 1
    confidence := 1
    originalText := some ("ct head".toList) }

/-- Second sample row for the grouping witnesses, same code and name. -/
def sampleRowB : ScannedStudy :=
  { id := "idB".toList
    cpt := "70450".toList
    name := "CT Head without contrast".toList
    rvu := 1
    quantity := 2
    confidence := 0
    originalText := none }

/-- Witness for C4 on a concrete two-element permutation. -/
theorem grouping_order_independent_C4_witness :
    ([sampleRowA, sampleRowB] : List ScannedStudy).Perm
      [sampleRowB, sampleRowA] ∧
    (mapGet (groupedMap [sampleRowA, sampleRowB])
        (groupKey sampleRowA)).map (fun s => (s.quantity, s.confidence)) =
    (mapGet (groupedMap [sampleRowB, sampleRowA])
        (groupKey sampleRowA)).map (fun s => (s.quantity, s.confidence)) :=
  ⟨List.Perm.swap sampleRowB sampleRowA [],
   grouping_order_independent_C4 [sampleRowA, sampleRowB]
     [sampleRowB, sampleRowA] (List.Perm.swap sampleRowB sampleRowA [])
     (groupKey sampleRowA)⟩

lemma foldl_deleteStudy (ids : List (List Char)) :
    ∀ l : List ScannedStudy,
      ids.foldl deleteStudy l =
        l.filter (fun s => !(ids.contains s.id)) := by
  induction ids with
  | nil =>
    intro l
    simp
  | cons i ids ih =>
    intro l
    simp only [List.foldl_cons]
    rw [ih]
    unfold deleteStudy
    rw [List.filter_filter]
    apply List.filter_congr
    intro s _
    by_cases hs : s.id = i <;> simp [List.contains_cons, hs]

/-- C5: with distinct row identifiers, deleting a group removes exactly
the rows whose code and name match the deleted group's key. -/
theorem grouped_delete_C5 (l : List ScannedStudy) (study : ScannedStudy)
    (hnd : (l.map (fun s => s.id)).Nodup) :
    handleDeleteGrouped l study =
      l.filter (fun s =>
        !(decide (s.cpt = study.cpt) && decide (s.name = study.name))) := by
  unfold handleDeleteGrouped
  rw [foldl_deleteStudy]
  apply List.filter_congr
  intro s hs
  have hinj := List.inj_on_of_nodup_map hnd
  congr 1
  have hiff : s.id ∈ (l.filter (fun r => decide (r.cpt = study.cpt) &&
      decide (r.name = study.name))).map (fun r => r.id) ↔
      (s.cpt = study.cpt ∧ s.name = study.name) := by
    constructor
    · intro hmem
      obtain ⟨r, hrf, hrid⟩ := List.mem_map.mp hmem
      obtain ⟨hrl, hrp⟩ := List.mem_filter.mp hrf
      have hr : r = s := hinj hrl hs hrid
      subst hr
      simpa using hrp
    · intro hmatch
      exact List.mem_map_of_mem _
        (List.mem_filter.mpr ⟨hs, by simp [hmatch.1, hmatch.2]⟩)
  calc ((l.filter (fun r => decide (r.cpt = study.cpt) &&
          decide (r.name = study.name))).map (fun r => r.id)).contains s.id
      = decide (s.id ∈ (l.filter (fun r => decide (r.cpt = study.cpt) &&
          decide (r.name = study.name))).map (fun r => r.id)) := by
        simp [List.contains]
    _ = decide (s.cpt = study.cpt ∧ s.name = study.name) :=
        decide_eq_decide.mpr hiff
    _ = (decide (s.cpt = study.cpt) && decide (s.name = study.name)) :=
        Bool.decide_and _ _

/-- A row with a different code and name for the deletion witness. -/
def sampleRowC : ScannedStudy :=
  { id := "idC".toList
    cpt := "71045".toList
    name := "Chest xray".toList
    rvu := 1
    quantity := 1
    confidence := 1
    originalText := none }

/-- Witness for C5 on a concrete list with distinct identifiers. -/
theorem grouped_delete_C5_witness :
    (([sampleRowA, sampleRowB, sampleRowC] : List ScannedStudy).map
      (fun s => s.id)).Nodup ∧
    handleDeleteGrouped [sampleRowA, sampleRowB, sampleRowC] sampleRowA =
      [sampleRowA, sampleRowB, sampleRowC].filter (fun s =>
        !(decide (s.cpt = sampleRowA.cpt) &&
          decide (s.name = sampleRowA.name))) :=
  ⟨by decide,
   grouped_delete_C5 [sampleRowA, sampleRowB, sampleRowC] sampleRowA
     (by decide)⟩

/-- C6 fails as stated: a group formed from a single row keeps that
row's original text instead of discarding it. -/
theorem grouped_display_C6_counterexample :
    (displayStudies true [sampleRowA]).map (fun s => s.originalText) =
      [some ("ct head".toList)] := by decide

/-- C6 amended: each grouped row aggregates its bucket with quantities
summed and confidence the running maximum, original text is dropped
whenever at least two rows merge, and three identical-key quantity-1
entries collapse to one row of quantity 3 with the maximal confidence. -/
theorem grouped_display_C6 :
    (∀ (l : List ScannedStudy) (k : List Char) (g : ScannedStudy),
      mapGet (groupedMap l) k = some g →
        g.quantity = ((l.filter (fun s => decide (groupKey s = k))).map
            (fun s => s.quantity)).sum
      ∧ ((l.filter (fun s => decide (groupKey s = k))).map
            (fun s => s.confidence)).foldl maxStep none = some g.confidence
      ∧ (2 ≤ (l.filter (fun s => decide (groupKey s = k))).length →
          g.originalText = none))
  ∧ (∀ s1 s2 s3 : ScannedStudy,
      s2.cpt = s1.cpt → s2.name = s1.name → s3.cpt = s1.cpt →
      s3.name = s1.name → s1.quantity = 1 → s2.quantity = 1 →
      s3.quantity = 1 →
      displayStudies true [s1, s2, s3] =
        [{ s1 with
            quantity := 3
            confidence := max (max s1.confidence s2.confidence) s3.confidence
            originalText := none }]) := by
  constructor
  · intro l k g hget
    rw [groupedMap_get] at hget
    cases hF : l.filter (fun s => decide (groupKey s = k)) with
    | nil =>
      rw [hF] at hget
      simp [aggregateGroup] at hget
    | cons h0 t =>
      rw [hF] at hget
      simp only [aggregateGroup, Option.some.injEq] at hget
      subst hget
      refine ⟨?_, ?_, ?_⟩
      · rw [foldl_mergeRow_quantity]
        simp
      · simp only [List.map_cons, List.foldl_cons, maxStep]
        rw [foldl_maxStep_some, foldl_mergeRow_confidence]
      · intro hlen
        apply foldl_mergeRow_orig
        intro ht
        subst ht
        simp at hlen
  · intro s1 s2 s3 hc2 hn2 hc3 hn3 hq1 hq2 hq3
    have hk2 : groupKey s2 = groupKey s1 := by
      unfold groupKey
      rw [hc2, hn2]
    have hk3 : groupKey s3 = groupKey s1 := by
      unfold groupKey
      rw [hc3, hn3]
    simp only [displayStudies, groupedMap, List.foldl_cons, List.foldl_nil,
      if_true]
    simp [groupInsert, mapGet, mapSet, mergeRow, hk2, hk3, hq1, hq2, hq3]
    norm_num

/-- Witness for the amended C6 on a concrete singleton bucket. -/
theorem grouped_display_C6_witness :
    mapGet (groupedMap [sampleRowA]) (groupKey sampleRowA) =
      some sampleRowA ∧
    (sampleRowA.quantity = (([sampleRowA].filter (fun s =>
        decide (groupKey s = groupKey sampleRowA))).map
        (fun s => s.quantity)).sum
     ∧ (([sampleRowA].filter (fun s =>
        decide (groupKey s = groupKey sampleRowA))).map
        (fun s => s.confidence)).foldl maxStep none =
          some sampleRowA.confidence
     ∧ (2 ≤ ([sampleRowA].filter (fun s =>
        decide (groupKey s = groupKey sampleRowA))).length →
          sampleRowA.originalText = none)) :=
  ⟨by decide,
   grouped_display_C6.1 [sampleRowA] (groupKey sampleRowA) sampleRowA
     (by decide)⟩

end RadRVU
